import Mathlib

/-!
Verification of the AGBD training-wrapper module (`Models/wrapper.py`).

The development shallowly embeds the `Model` Lightning-module wrapper:
its construction (`Model.__init__`), the validation dispatcher
(`Model.validation_step`) and the epoch-end reducer
(`Model.on_validation_epoch_end`).  The neural network itself is an
external collaborator: a batch is represented, post-forward, by the list
of its per-sample centre-pixel channel-0 predictions together with the
list of its labels, both rational numbers.

Numeric model.  Python floats carrying metric values are modelled by
`FVal`, with explicit `nan` (the result of reducing an empty tensor) and
`inf` (the initial watermark `np.inf`) constructors.  The `RMSE` metric
is imported by the source from `loss.py`, which is outside the excerpt;
it is modelled from the spec as the root of the mean of the squared
prediction/label differences.  Since the square root is strictly
monotone on nonnegative reals, every comparison or equality of RMSE
values coincides with that of the underlying mean squared error, so an
RMSE value is represented here by its square (`mseV`): an RMSE of 10.0
is the value `FVal.val 100`, and the ordering and equality facts proved
below transfer verbatim to the rooted values.
-/

/-- A Python float as it occurs in the wrapper's metric plumbing: either a
finite value (represented exactly as a rational), positive infinity
(`np.inf`, the watermark's initial value), or `nan` (what `torch.sqrt` of
the mean of an empty tensor produces). -/
inductive FVal
  | nan
  | inf
  | val (q : ℚ)
deriving DecidableEq, Repr

/-- IEEE-style strict less-than on modelled floats: any comparison with
`nan` is false, every finite value is below `inf`, finite values compare
as rationals. -/
def FVal.lt : FVal → FVal → Bool
  | .nan, _ => false
  | _, .nan => false
  | .inf, _ => false
  | .val _, .inf => true
  | .val a, .val b => decide (a < b)

/-- Reflexive companion of `FVal.lt`, used to state monotonicity of the
watermark. -/
def FVal.le (a b : FVal) : Bool :=
  a = b || FVal.lt a b

/-- Modelled from the spec: the `RMSE` metric primitive lives in `loss.py`,
which is not part of the excerpt.  Per the spec it computes the root of
the mean of the squared prediction/label differences, and reducing an
empty selection yields an undefined (`nan`) result.  The value is
represented by its square (the mean squared error), which determines the
RMSE uniquely and order-isomorphically. -/
def mseV (preds labels : List ℚ) : FVal :=
  let ds := (preds.zip labels).map fun pl => (pl.1 - pl.2) ^ 2
  if ds.isEmpty then .nan else .val (ds.sum / ds.length)

/-- One `(name, value, step)` triple passed to the Lightning `log_dict`
metric sink. -/
structure LogEntry where
  name : String
  value : FVal
  step : ℕ
deriving DecidableEq, Repr

/-- The bin boundaries `np.arange(0, 501, 50)` used by the binned
evaluator. -/
def bins : List ℕ := [0, 50, 100, 150, 200, 250, 300, 350, 400, 450, 500]

/-- The adjacent boundary pairs `zip(bins[:-1], bins[1:])`. -/
def binEdges : List (ℕ × ℕ) := bins.dropLast.zip (bins.drop 1)

/-- The mask `(lb <= labels) & (labels < ub)` applied to a
prediction/label pair, deciding by the label. -/
def inBin (lu : ℕ × ℕ) (pl : ℚ × ℚ) : Bool :=
  decide ((lu.1 : ℚ) ≤ pl.2) && decide (pl.2 < (lu.2 : ℚ))

/-- The `lb`-`ub` suffix of a binned metric name, as produced by the
source's f-strings. -/
def binSuffix (lu : ℕ × ℕ) : String :=
  let lb := lu.1
  let ub := lu.2
  s!"{lb}-{ub}"

/-- The binned-evaluator loop of `on_validation_epoch_end`: for each
adjacent boundary pair, select the prediction/label pairs whose label
falls in `[lb, ub)` and log the RMSE over the selection under
`stem ++ "lb-ub"`.  The selection and the logging are unconditional: an
empty bin still produces a log entry (its value is `nan`). -/
def binnedLogs (stem : String) (preds labels : List ℚ) (epoch : ℕ) : List LogEntry :=
  binEdges.map fun lu =>
    let sel := (preds.zip labels).filter (inBin lu)
    { name := stem ++ binSuffix lu
      value := mseV (sel.map Prod.fst) (sel.map Prod.snd)
      step := epoch }

/-- The state owned by the `Model` wrapper that the validation loop reads
and writes: the best-validation watermark `best_val_rmse`, the fixed
centre-pixel index, and the four per-epoch accumulators (lists of
per-batch lists). -/
structure ModelState where
  best_val_rmse : FVal
  center : ℕ
  val_preds : List (List ℚ)
  val_labels : List (List ℚ)
  test_preds : List (List ℚ)
  test_labels : List (List ℚ)
deriving DecidableEq, Repr

/-- `Model.__init__`: the watermark starts at `np.inf`, the centre-pixel
index is `int(patch_size[0] // 5) // 2` when downsampling and
`int(patch_size[0] // 2)` otherwise, and all accumulators start empty.
`patch_size0` stands for `patch_size[0]`, the first entry of the patch
size list. -/
def initState (patch_size0 : ℕ) (downsample : Bool) : ModelState :=
  { best_val_rmse := .inf
    center := if downsample then (patch_size0 / 5) / 2 else patch_size0 / 2
    val_preds := []
    val_labels := []
    test_preds := []
    test_labels := [] }

/-- `Model.validation_step`: route a batch (given post-forward as its
centre-pixel channel-0 predictions and its labels) into the accumulator
selected by `dataloader_idx`.  `none` models Python's `None` default;
`some n` an explicit integer index.  Any index outside `None`, `0`, `1`
raises `ValueError`. -/
def validation_step (s : ModelState) (preds labels : List ℚ)
    (dataloader_idx : Option ℤ) : Except String ModelState :=
  if dataloader_idx = none ∨ dataloader_idx = some 0 then
    .ok { s with
          val_preds := s.val_preds ++ [preds]
          val_labels := s.val_labels ++ [labels] }
  else if dataloader_idx = some 1 then
    .ok { s with
          test_preds := s.test_preds ++ [preds]
          test_labels := s.test_labels ++ [labels] }
  else
    .error "dataloader_idx should be 0 or 1"

/-- `Model.on_validation_epoch_end`: log the learning rate, concatenate
and reduce the validation accumulator (overall RMSE then the binned
loop), clear it, do the same for the test accumulator, then perform the
best-watermark compare-and-set, which on improvement re-logs the current
validation and test RMSE and the test binned metrics under the `best`
namespace.  `torch.cat` over an empty list of tensors raises, so an
empty accumulator is a fatal error (the run aborts; the partial log
output of an aborted call is not modelled).  `lr` is the learning rate
read from the scheduler and `epoch` is `self.current_epoch`. -/
def on_validation_epoch_end (s : ModelState) (lr : ℚ) (epoch : ℕ) :
    Except String (ModelState × List LogEntry) :=
  if s.val_preds.isEmpty ∨ s.val_labels.isEmpty ∨
     s.test_preds.isEmpty ∨ s.test_labels.isEmpty then
    .error "torch.cat(): expected a non-empty list of Tensors"
  else
    let lrLog : LogEntry := ⟨"trainer/learning_rate", .val lr, epoch⟩
    let valPreds := s.val_preds.flatten
    let valLabels := s.val_labels.flatten
    let val_agbd_rmse := mseV valPreds valLabels
    let valLog : LogEntry := ⟨"val/agbd_rmse", val_agbd_rmse, epoch⟩
    let valBinned := binnedLogs "val/binned/rmse_" valPreds valLabels epoch
    let testPreds := s.test_preds.flatten
    let testLabels := s.test_labels.flatten
    let test_agbd_rmse := mseV testPreds testLabels
    let testLog : LogEntry := ⟨"test/agbd_rmse", test_agbd_rmse, epoch⟩
    let testBinned := binnedLogs "test/binned/rmse_" testPreds testLabels epoch
    let improved := FVal.lt val_agbd_rmse s.best_val_rmse
    let bestLogs : List LogEntry :=
      if improved then
        ⟨"val/best_rmse", val_agbd_rmse, epoch⟩ ::
        ⟨"test/best_rmse", test_agbd_rmse, epoch⟩ ::
        binnedLogs "test/binned/best_rmse_" testPreds testLabels epoch
      else []
    .ok ({ s with
           best_val_rmse := if improved then val_agbd_rmse else s.best_val_rmse
           val_preds := []
           val_labels := []
           test_preds := []
           test_labels := [] },
         [lrLog, valLog] ++ valBinned ++ [testLog] ++ testBinned ++ bestLogs)

/-- Look up the value logged under a given metric name. -/
def lookupLog (logs : List LogEntry) (n : String) : Option FVal :=
  (logs.find? fun e => e.name = n).map LogEntry.value

instance decEqExcept {ε α : Type} [DecidableEq ε] [DecidableEq α] :
    DecidableEq (Except ε α) := fun x y =>
  match x, y with
  | .ok a, .ok b =>
    if h : a = b then .isTrue (by rw [h]) else .isFalse (fun hc => h (Except.ok.inj hc))
  | .error a, .error b =>
    if h : a = b then .isTrue (by rw [h]) else .isFalse (fun hc => h (Except.error.inj hc))
  | .ok _, .error _ => .isFalse (fun hc => Except.noConfusion hc)
  | .error _, .ok _ => .isFalse (fun hc => Except.noConfusion hc)

/-- The overall validation RMSE (squared) computed by the epoch-end
reducer: `RMSE()(torch.cat(self.val_preds), torch.cat(self.val_labels))`. -/
def valEpochRmse (s : ModelState) : FVal :=
  mseV s.val_preds.flatten s.val_labels.flatten

/-- The overall test RMSE (squared) computed by the epoch-end reducer. -/
def testEpochRmse (s : ModelState) : FVal :=
  mseV s.test_preds.flatten s.test_labels.flatten

/-- Derived view of the state left behind by a successful
`on_validation_epoch_end`: the watermark after the compare-and-set and
the four cleared accumulators.  Related to the embedded method by
`epochEnd_eq`. -/
def epochEndState (s : ModelState) : ModelState :=
  { s with
    best_val_rmse :=
      if (valEpochRmse s).lt s.best_val_rmse then valEpochRmse s else s.best_val_rmse
    val_preds := []
    val_labels := []
    test_preds := []
    test_labels := [] }

/-- Derived view of the log entries emitted by a successful
`on_validation_epoch_end`, in emission order.  Related to the embedded
method by `epochEnd_eq`. -/
def epochEndLogs (s : ModelState) (lr : ℚ) (epoch : ℕ) : List LogEntry :=
  [⟨"trainer/learning_rate", .val lr, epoch⟩,
   ⟨"val/agbd_rmse", valEpochRmse s, epoch⟩] ++
  binnedLogs "val/binned/rmse_" s.val_preds.flatten s.val_labels.flatten epoch ++
  [⟨"test/agbd_rmse", testEpochRmse s, epoch⟩] ++
  binnedLogs "test/binned/rmse_" s.test_preds.flatten s.test_labels.flatten epoch ++
  (if (valEpochRmse s).lt s.best_val_rmse then
     ⟨"val/best_rmse", valEpochRmse s, epoch⟩ ::
     ⟨"test/best_rmse", testEpochRmse s, epoch⟩ ::
     binnedLogs "test/binned/best_rmse_" s.test_preds.flatten s.test_labels.flatten epoch
   else [])

/-- Reachability between wrapper states by any interleaving of
validation-step accumulations and successful epoch-end reductions; this
is the state evolution of the wrapper over a whole validation run. -/
inductive Reaches : ModelState → ModelState → Prop
  | refl (s : ModelState) : Reaches s s
  | val_step {s s2 t : ModelState} (preds labels : List ℚ) (i : Option ℤ)
      (h : validation_step s preds labels i = .ok s2) (h2 : Reaches s2 t) :
      Reaches s t
  | epoch_end {s s2 t : ModelState} (lr : ℚ) (epoch : ℕ) (logs : List LogEntry)
      (h : on_validation_epoch_end s lr epoch = .ok (s2, logs)) (h2 : Reaches s2 t) :
      Reaches s t

/-- One whole validation cycle on concrete data: one validation batch,
one test batch, then the epoch-end reduction.  Used to run the spec's
watermark scenario. -/
def runEpoch (s : ModelState) (vp vl tp tl : List ℚ) (lr : ℚ) (epoch : ℕ) :
    Except String (ModelState × List LogEntry) := do
  let s1 ← validation_step s vp vl (some 0)
  let s2 ← validation_step s1 tp tl (some 1)
  on_validation_epoch_end s2 lr epoch

/-- The resulting watermark of a validation cycle, `none` on failure. -/
def bestAfter (r : Except String (ModelState × List LogEntry)) : Option FVal :=
  match r with
  | .ok (s, _) => some s.best_val_rmse
  | .error _ => none

/-- Whether a validation cycle reported the `best`-namespace test
metrics. -/
def bestReported (r : Except String (ModelState × List LogEntry)) : Bool :=
  match r with
  | .ok (_, logs) => (lookupLog logs "test/best_rmse").isSome
  | .error _ => false

/-- A concrete mid-epoch state used to instantiate the hypothesis-bearing
theorems: one validation batch with squared error 100 (RMSE 10) and one
test batch with squared error 1. -/
def cWitState : ModelState := ⟨.inf, 7, [[10]], [[0]], [[1]], [[0]]⟩

/-- First cycle of the watermark scenario: validation RMSE 10
(squared 100), running at epoch counter 1. -/
def scenarioRun1 : Except String (ModelState × List LogEntry) :=
  runEpoch (initState 15 false) [10] [0] [1] [0] 1 1

/-- Second cycle of the watermark scenario: validation RMSE 8
(squared 64), at epoch counter 2. -/
def scenarioRun2 : Except String (ModelState × List LogEntry) :=
  scenarioRun1 >>= fun r => runEpoch r.1 [8] [0] [1] [0] 1 2

/-- Third cycle of the watermark scenario: validation RMSE 9
(squared 81), at epoch counter 3. -/
def scenarioRun3 : Except String (ModelState × List LogEntry) :=
  scenarioRun2 >>= fun r => runEpoch r.1 [9] [0] [1] [0] 1 3

/-- A state whose only nonempty bin is 0-50 (its single label is 10),
used to exhibit the evaluator's behaviour on empty bins. -/
def emptyBinState : ModelState := ⟨.inf, 7, [[12]], [[10]], [[12]], [[10]]⟩

/-! ### Basic facts about the modelled float order -/

theorem FVal.le_of_lt {a b : FVal} (h : FVal.lt a b = true) : FVal.le a b = true := by
  simp [FVal.le, h]

theorem FVal.le_refl (a : FVal) : FVal.le a a = true := by
  simp [FVal.le]

theorem FVal.lt_irrefl (a : FVal) : FVal.lt a a = false := by
  cases a <;> simp [FVal.lt]

theorem FVal.le_trans {a b c : FVal} (h1 : FVal.le a b = true) (h2 : FVal.le b c = true) :
    FVal.le a c = true := by
  cases a <;> cases b <;> cases c <;>
    simp_all only [FVal.le, FVal.lt, Bool.or_eq_true, decide_eq_true_eq, reduceCtorEq,
      FVal.val.injEq, false_or, or_false, or_true, true_or, Bool.false_eq_true]
  rcases h1 with rfl | h1
  · exact h2
  · rcases h2 with rfl | h2
    · exact Or.inr h1
    · exact Or.inr (lt_trans h1 h2)

/-! ### Shape of a successful epoch-end reduction -/

theorem epochEnd_eq (s : ModelState) (lr : ℚ) (epoch : ℕ)
    (h : ¬(s.val_preds.isEmpty ∨ s.val_labels.isEmpty ∨
           s.test_preds.isEmpty ∨ s.test_labels.isEmpty)) :
    on_validation_epoch_end s lr epoch =
      .ok (epochEndState s, epochEndLogs s lr epoch) := by
  rw [on_validation_epoch_end, if_neg h]
  rfl

theorem epochEnd_ok_inv {s : ModelState} {lr : ℚ} {epoch : ℕ} {s2 : ModelState}
    {logs : List LogEntry}
    (h : on_validation_epoch_end s lr epoch = .ok (s2, logs)) :
    s2 = epochEndState s ∧ logs = epochEndLogs s lr epoch ∧
      s.val_preds ≠ [] ∧ s.val_labels ≠ [] ∧ s.test_preds ≠ [] ∧ s.test_labels ≠ [] := by
  by_cases hc : s.val_preds.isEmpty ∨ s.val_labels.isEmpty ∨
      s.test_preds.isEmpty ∨ s.test_labels.isEmpty
  · rw [on_validation_epoch_end, if_pos hc] at h
    exact absurd h (by simp)
  · rw [epochEnd_eq s lr epoch hc] at h
    simp only [Except.ok.injEq, Prod.mk.injEq] at h
    simp only [List.isEmpty_iff, not_or] at hc
    exact ⟨h.1.symm, h.2.symm, hc.1, hc.2.1, hc.2.2.1, hc.2.2.2⟩

theorem epochEndState_best_le (s : ModelState) :
    ((epochEndState s).best_val_rmse).le s.best_val_rmse = true := by
  by_cases hlt : (valEpochRmse s).lt s.best_val_rmse
  · simp only [epochEndState, hlt, if_true]
    exact FVal.le_of_lt hlt
  · simp only [epochEndState, hlt, if_false]
    exact FVal.le_refl _

/-! ### Shape of the validation dispatcher's branches -/

theorem validation_step_none (s : ModelState) (preds labels : List ℚ) :
    validation_step s preds labels none = validation_step s preds labels (some 0) := rfl

theorem validation_step_zero (s : ModelState) (preds labels : List ℚ) :
    validation_step s preds labels (some 0) =
      .ok { s with
            val_preds := s.val_preds ++ [preds]
            val_labels := s.val_labels ++ [labels] } := rfl

theorem validation_step_one (s : ModelState) (preds labels : List ℚ) :
    validation_step s preds labels (some 1) =
      .ok { s with
            test_preds := s.test_preds ++ [preds]
            test_labels := s.test_labels ++ [labels] } := rfl

theorem validation_step_invalid (s : ModelState) (preds labels : List ℚ) (n : ℤ)
    (h0 : n ≠ 0) (h1 : n ≠ 1) :
    validation_step s preds labels (some n) =
      .error "dataloader_idx should be 0 or 1" := by
  rw [validation_step, if_neg (by simp [h0]), if_neg (by simp [h1])]

theorem validation_step_best {s s2 : ModelState} {preds labels : List ℚ} {i : Option ℤ}
    (h : validation_step s preds labels i = .ok s2) :
    s2.best_val_rmse = s.best_val_rmse := by
  rw [validation_step] at h
  split at h
  · rw [← Except.ok.inj h]
  · split at h
    · rw [← Except.ok.inj h]
    · exact absurd h (by simp)

/-! ### The binned evaluator partitions the label range -/

theorem chain_le_getLastD (c : ℚ) (l : List ℚ) (h : List.Chain (· ≤ ·) c l) :
    c ≤ l.getLastD c := by
  induction l generalizing c with
  | nil => simp
  | cons b t ih =>
    rw [List.chain_cons] at h
    rw [List.getLastD_cons]
    exact le_trans h.1 (ih b h.2)

theorem countP_adjacent (q : ℚ) (b : ℚ) (l : List ℚ) (h : List.Chain (· ≤ ·) b l) :
    ((b :: l).zip l).countP (fun lu => decide (lu.1 ≤ q) && decide (q < lu.2)) =
      if b ≤ q ∧ q < l.getLastD b then 1 else 0 := by
  induction l generalizing b with
  | nil =>
    rw [if_neg]
    · rfl
    · rintro ⟨h1, h2⟩
      simp only [List.getLastD_nil] at h2
      linarith
  | cons c t ih =>
    rw [List.chain_cons] at h
    have hz : ((b :: c :: t).zip (c :: t)) = (b, c) :: ((c :: t).zip t) := rfl
    rw [hz, List.countP_cons, ih c h.2, List.getLastD_cons]
    have hbc : b ≤ c := h.1
    have hcl : c ≤ t.getLastD c := chain_le_getLastD c t h.2
    simp only [Bool.and_eq_true, decide_eq_true_eq]
    by_cases h1 : q < c
    · rw [if_neg (by rintro ⟨hh, _⟩; linarith)]
      by_cases h2 : b ≤ q
      · rw [if_pos ⟨h2, h1⟩, if_pos ⟨h2, by linarith⟩]
      · rw [if_neg (by rintro ⟨hh, _⟩; exact h2 hh),
            if_neg (by rintro ⟨hh, _⟩; exact h2 hh)]
    · push_neg at h1
      by_cases h3 : q < t.getLastD c
      · rw [if_pos ⟨h1, h3⟩, if_neg (by rintro ⟨_, hh⟩; linarith),
            if_pos ⟨by linarith, h3⟩]
      · rw [if_neg (by rintro ⟨_, hh⟩; exact h3 hh),
            if_neg (by rintro ⟨_, hh⟩; linarith),
            if_neg (by rintro ⟨_, hh⟩; exact h3 hh)]

theorem binEdges_countP (pl : ℚ × ℚ) :
    binEdges.countP (fun lu => inBin lu pl) =
      if (0 : ℚ) ≤ pl.2 ∧ pl.2 < 500 then 1 else 0 := by
  have hmap : binEdges.map (fun lu => ((lu.1 : ℚ), (lu.2 : ℚ))) =
      (((0 : ℚ) :: [50, 100, 150, 200, 250, 300, 350, 400, 450, 500]).zip
        [50, 100, 150, 200, 250, 300, 350, 400, 450, 500]) := by
    norm_num [binEdges, bins]
  have hcp : binEdges.countP (fun lu => inBin lu pl) =
      (binEdges.map (fun lu => ((lu.1 : ℚ), (lu.2 : ℚ)))).countP
        (fun ab => decide (ab.1 ≤ pl.2) && decide (pl.2 < ab.2)) := by
    rw [List.countP_map]
    rfl
  rw [hcp, hmap,
    countP_adjacent pl.2 0 [50, 100, 150, 200, 250, 300, 350, 400, 450, 500]
      (by norm_num [List.chain_cons])]
  rfl

theorem sum_map_ite {α : Type} (l : List α) (p : α → Bool) (c : ℕ) :
    (l.map fun x => if p x then c else 0).sum = c * l.countP p := by
  induction l with
  | nil => simp
  | cons a t ih =>
    by_cases h : p a
    · simp only [List.map_cons, List.sum_cons, if_pos h, List.countP_cons, h, if_true, ih,
        Nat.mul_add, Nat.mul_one]
      ring
    · simp only [List.map_cons, List.sum_cons, if_neg h, List.countP_cons, h, if_false, ih,
        Bool.false_eq_true, Nat.add_zero, Nat.mul_add, Nat.mul_zero, Nat.zero_add]

theorem count_filter_eq {α : Type} [DecidableEq α] (p : α → Bool) (a : α) (l : List α) :
    List.count a (l.filter p) = if p a then List.count a l else 0 := by
  induction l with
  | nil => simp
  | cons b t ih =>
    by_cases hb : p b <;> by_cases hab : b = a <;>
      simp_all [List.filter_cons, List.count_cons]

theorem binned_union_perm (preds labels : List ℚ) :
    ((binEdges.map fun lu => (preds.zip labels).filter (inBin lu)).flatten).Perm
      ((preds.zip labels).filter fun pl =>
        decide ((0 : ℚ) ≤ pl.2) && decide (pl.2 < 500)) := by
  rw [List.perm_iff_count]
  intro a
  rw [@List.count_flatten (ℚ × ℚ) instBEqOfDecidableEq a
      (binEdges.map fun lu => (preds.zip labels).filter (inBin lu)), List.map_map]
  simp only [Function.comp_def, count_filter_eq]
  rw [sum_map_ite, binEdges_countP a]
  by_cases h : (0 : ℚ) ≤ a.2 ∧ a.2 < 500
  · rw [if_pos h, Nat.mul_one, if_pos (by simpa using h)]
  · rw [if_neg h, Nat.mul_zero, if_neg (by simpa using h)]

/-! ### Claims -/

/-- C5: the centre-pixel index is computed once at construction as
`patch_size // 2` without downsampling and `(patch_size // 5) // 2` with
downsampling; in particular for patch size 15 it is 7 without and 1 with
downsampling. -/
theorem C5_center_pixel :
    (initState 15 false).center = 7 ∧ (initState 15 true).center = 1 ∧
    (∀ (patch_size0 : ℕ) (d : Bool),
      (initState patch_size0 d).center =
        if d then (patch_size0 / 5) / 2 else patch_size0 / 2) :=
  ⟨rfl, rfl, fun _ _ => rfl⟩

/-- C2: given an explicit integer source index, the validation dispatcher
accepts exactly the indices 0 and 1; any other integer raises the
`ValueError` (it neither defaults nor ignores the batch).  The absent
(`None`) index, which Python defaults to validation routing, is treated
in C9. -/
theorem C2_dispatcher_rejects_invalid :
    ∀ (s : ModelState) (preds labels : List ℚ) (n : ℤ),
      ((∃ s2, validation_step s preds labels (some n) = Except.ok s2) ↔ n = 0 ∨ n = 1) ∧
      ((validation_step s preds labels (some n) =
          Except.error "dataloader_idx should be 0 or 1") ↔ ¬(n = 0 ∨ n = 1)) := by
  intro s preds labels n
  by_cases h0 : n = 0
  · subst h0
    rw [validation_step_zero]
    constructor
    · exact ⟨fun _ => Or.inl rfl, fun _ => ⟨_, rfl⟩⟩
    · constructor
      · intro h
        exact absurd h (by simp)
      · intro h
        exact absurd (Or.inl rfl) h
  · by_cases h1 : n = 1
    · subst h1
      rw [validation_step_one]
      constructor
      · exact ⟨fun _ => Or.inr rfl, fun _ => ⟨_, rfl⟩⟩
      · constructor
        · intro h
          exact absurd h (by simp)
        · intro h
          exact absurd (Or.inr rfl) h
    · rw [validation_step_invalid s preds labels n h0 h1]
      constructor
      · constructor
        · rintro ⟨s2, h⟩
          exact absurd h (by simp)
        · rintro (rfl | rfl)
          · exact absurd rfl h0
          · exact absurd rfl h1
      · constructor
        · rintro _ (rfl | rfl)
          · exact h0 rfl
          · exact h1 rfl
        · intro _
          rfl

/-- C9: the validation dispatcher raises an error exactly when the source
index lies outside `{None, 0, 1}`, and the `None` default behaves
identically to source index 0 (the batch is routed to the validation
accumulator). -/
theorem C9_error_iff_and_none_default :
    ∀ (s : ModelState) (preds labels : List ℚ),
      validation_step s preds labels none = validation_step s preds labels (some 0) ∧
      ∀ i : Option ℤ,
        ((∃ msg, validation_step s preds labels i = Except.error msg) ↔
          (i ≠ none ∧ i ≠ some 0 ∧ i ≠ some 1)) := by
  intro s preds labels
  refine ⟨validation_step_none s preds labels, ?_⟩
  intro i
  match i with
  | none =>
    rw [validation_step_none, validation_step_zero]
    simp
  | some 0 =>
    rw [validation_step_zero]
    simp
  | some 1 =>
    rw [validation_step_one]
    simp
  | some (n : ℤ) =>
    by_cases h0 : n = 0
    · subst h0
      rw [validation_step_zero]
      simp
    · by_cases h1 : n = 1
      · subst h1
        rw [validation_step_one]
        simp
      · rw [validation_step_invalid s preds labels n h0 h1]
        simp [h0, h1]

/-- C7: a batch with valid source index 0 (resp. 1) grows the validation
(resp. test) accumulator by exactly the batch's samples, appended in
order, and leaves the other accumulator (and the watermark) unchanged. -/
theorem C7_dispatcher_frame_effect :
    ∀ (s : ModelState) (preds labels : List ℚ) (s2 : ModelState),
      (validation_step s preds labels (some 0) = Except.ok s2 →
        s2.val_preds.flatten = s.val_preds.flatten ++ preds ∧
        s2.val_labels.flatten = s.val_labels.flatten ++ labels ∧
        s2.val_preds.flatten.length = s.val_preds.flatten.length + preds.length ∧
        s2.val_labels.flatten.length = s.val_labels.flatten.length + labels.length ∧
        s2.test_preds = s.test_preds ∧ s2.test_labels = s.test_labels ∧
        s2.best_val_rmse = s.best_val_rmse) ∧
      (validation_step s preds labels (some 1) = Except.ok s2 →
        s2.test_preds.flatten = s.test_preds.flatten ++ preds ∧
        s2.test_labels.flatten = s.test_labels.flatten ++ labels ∧
        s2.test_preds.flatten.length = s.test_preds.flatten.length + preds.length ∧
        s2.test_labels.flatten.length = s.test_labels.flatten.length + labels.length ∧
        s2.val_preds = s.val_preds ∧ s2.val_labels = s.val_labels ∧
        s2.best_val_rmse = s.best_val_rmse) := by
  intro s preds labels s2
  constructor
  · intro h
    rw [validation_step_zero] at h
    rw [← Except.ok.inj h]
    simp
  · intro h
    rw [validation_step_one] at h
    rw [← Except.ok.inj h]
    simp

/-- Witness for C7 at a concrete state and batch. -/
theorem C7_dispatcher_frame_effect_witness :
    (initState 15 false).val_preds.flatten ++ [1, 2] = [1, 2] ∧
    (validation_step (initState 15 false) [1, 2] [3, 4] (some 0) =
      Except.ok ⟨.inf, 7, [[1, 2]], [[3, 4]], [], []⟩) ∧
    (⟨.inf, 7, [[1, 2]], [[3, 4]], [], []⟩ : ModelState).val_preds.flatten =
      (initState 15 false).val_preds.flatten ++ [1, 2] := by
  refine ⟨by decide, by decide, ?_⟩
  exact ((C7_dispatcher_frame_effect (initState 15 false) [1, 2] [3, 4]
    ⟨.inf, 7, [[1, 2]], [[3, 4]], [], []⟩).1 (by decide)).1

/-- C4: after every successful epoch-end drain both accumulators are
empty (length 0), and the accumulator state is the same as in a freshly
constructed wrapper. -/
theorem C4_drain_resets_accumulators :
    ∀ (s : ModelState) (lr : ℚ) (epoch : ℕ) (s2 : ModelState) (logs : List LogEntry),
      on_validation_epoch_end s lr epoch = Except.ok (s2, logs) →
      s2.val_preds.length = 0 ∧ s2.val_labels.length = 0 ∧
      s2.test_preds.length = 0 ∧ s2.test_labels.length = 0 ∧
      (∀ (patch_size0 : ℕ) (d : Bool),
        s2.val_preds = (initState patch_size0 d).val_preds ∧
        s2.val_labels = (initState patch_size0 d).val_labels ∧
        s2.test_preds = (initState patch_size0 d).test_preds ∧
        s2.test_labels = (initState patch_size0 d).test_labels) := by
  intro s lr epoch s2 logs h
  obtain ⟨rfl, -, -⟩ := epochEnd_ok_inv h
  exact ⟨rfl, rfl, rfl, rfl, fun _ _ => ⟨rfl, rfl, rfl, rfl⟩⟩

/-- Witness for C4: a concrete drain of `cWitState`. -/
theorem C4_drain_resets_accumulators_witness :
    on_validation_epoch_end cWitState 1 0 =
      Except.ok (epochEndState cWitState, epochEndLogs cWitState 1 0) ∧
    (epochEndState cWitState).val_preds.length = 0 ∧
    (epochEndState cWitState).test_preds.length = 0 := by
  have h := epochEnd_eq cWitState 1 0 (by decide)
  have h2 := C4_drain_resets_accumulators cWitState 1 0
    (epochEndState cWitState) (epochEndLogs cWitState 1 0) h
  exact ⟨h, h2.1, h2.2.2.1⟩

/-- C1: the best-validation watermark starts at `np.inf`; an epoch-end
reduction replaces it by the epoch's validation RMSE exactly when that
RMSE is strictly below the current watermark (so ties leave it
unchanged, and it changes at most once per reduction, only to that
single candidate value); and it is monotonically non-increasing along
any interleaving of dispatcher steps and epoch-end reductions.  RMSE
values are represented by their squares (see `mseV`), which preserves
all comparisons. -/
theorem C1_watermark_invariant :
    (∀ (patch_size0 : ℕ) (d : Bool),
      (initState patch_size0 d).best_val_rmse = FVal.inf) ∧
    (∀ (s : ModelState) (lr : ℚ) (epoch : ℕ) (s2 : ModelState) (logs : List LogEntry),
      on_validation_epoch_end s lr epoch = Except.ok (s2, logs) →
      s2.best_val_rmse =
        (if (valEpochRmse s).lt s.best_val_rmse then valEpochRmse s else s.best_val_rmse) ∧
      (s2.best_val_rmse ≠ s.best_val_rmse →
        (valEpochRmse s).lt s.best_val_rmse = true ∧ s2.best_val_rmse = valEpochRmse s) ∧
      (valEpochRmse s = s.best_val_rmse → s2.best_val_rmse = s.best_val_rmse) ∧
      (s2.best_val_rmse).le s.best_val_rmse = true) ∧
    (∀ s t : ModelState, Reaches s t → (t.best_val_rmse).le s.best_val_rmse = true) := by
  refine ⟨fun _ _ => rfl, ?_, ?_⟩
  · intro s lr epoch s2 logs h
    obtain ⟨rfl, -, -⟩ := epochEnd_ok_inv h
    refine ⟨rfl, ?_, ?_, ?_⟩
    · intro hne
      by_cases hlt : (valEpochRmse s).lt s.best_val_rmse
      · exact ⟨hlt, by simp [epochEndState, hlt]⟩
      · exact absurd (by simp [epochEndState, hlt]) hne
    · intro heq
      simp [epochEndState, heq, FVal.lt_irrefl]
    · exact epochEndState_best_le s
  · intro s t h
    induction h with
    | refl s => exact FVal.le_refl _
    | val_step preds labels i hstep hreach ih =>
      rw [validation_step_best hstep] at ih
      exact ih
    | epoch_end lr epoch logs hstep hreach ih =>
      obtain ⟨rfl, -, -⟩ := epochEnd_ok_inv hstep
      exact FVal.le_trans ih (epochEndState_best_le _)


theorem binEdges_eq :
    binEdges = [(0, 50), (50, 100), (100, 150), (150, 200), (200, 250),
      (250, 300), (300, 350), (350, 400), (400, 450), (450, 500)] := by decide

theorem binSuffix_evals :
    binSuffix (0, 50) = "0-50" ∧ binSuffix (50, 100) = "50-100" ∧
    binSuffix (100, 150) = "100-150" ∧ binSuffix (150, 200) = "150-200" ∧
    binSuffix (200, 250) = "200-250" ∧ binSuffix (250, 300) = "250-300" ∧
    binSuffix (300, 350) = "300-350" ∧ binSuffix (350, 400) = "350-400" ∧
    binSuffix (400, 450) = "400-450" ∧ binSuffix (450, 500) = "450-500" := by decide

/-- Witness for C1: the initial watermark, and monotonicity along a
concrete one-reduction chain from `cWitState`. -/
theorem C1_watermark_invariant_witness :
    (initState 15 false).best_val_rmse = FVal.inf ∧
    ((epochEndState cWitState).best_val_rmse).le cWitState.best_val_rmse = true := by
  have h := epochEnd_eq cWitState 1 0 (by decide)
  refine ⟨C1_watermark_invariant.1 15 false, ?_⟩
  exact C1_watermark_invariant.2.2 cWitState (epochEndState cWitState)
    (Reaches.epoch_end 1 0 (epochEndLogs cWitState 1 0) h (Reaches.refl _))


/-! ### Locating metrics in the emitted log list by name -/

theorem string_append_left_inj (s : String) {a b : String} : s ++ a = s ++ b ↔ a = b := by
  constructor
  · intro h
    have hd : s.data ++ a.data = s.data ++ b.data := by
      rw [← String.data_append, ← String.data_append, h]
    exact String.ext (List.append_cancel_left hd)
  · intro h
    rw [h]

theorem binSuffix_inj : ∀ x ∈ binEdges, ∀ y ∈ binEdges, binSuffix x = binSuffix y → x = y := by
  decide

theorem find?_map_name {α : Type} (l : List α) (f : α → LogEntry) (nm : α → String)
    (hnm : ∀ x, (f x).name = nm x) (x : α) (hx : x ∈ l)
    (hinj : ∀ y ∈ l, nm y = nm x → f y = f x) :
    (l.map f).find? (fun e => e.name = nm x) = some (f x) := by
  induction l with
  | nil => cases hx
  | cons a t ih =>
    rw [List.map_cons]
    by_cases ha : nm a = nm x
    · rw [List.find?_cons_of_pos]
      · rw [hinj a (List.mem_cons_self a t) ha]
      · simp [hnm a, ha]
    · rw [List.find?_cons_of_neg]
      · apply ih
        · rcases List.mem_cons.mp hx with rfl | hxt
          · exact absurd rfl ha
          · exact hxt
        · intro y hy hnmy
          exact hinj y (List.mem_cons_of_mem a hy) hnmy
      · simp [hnm a, ha]

theorem binnedLogs_mem {stem : String} {preds labels : List ℚ} {epoch : ℕ} {e : LogEntry}
    (h : e ∈ binnedLogs stem preds labels epoch) :
    ∃ lu ∈ binEdges, e =
      ⟨stem ++ binSuffix lu,
        mseV (((preds.zip labels).filter (inBin lu)).map Prod.fst)
             (((preds.zip labels).filter (inBin lu)).map Prod.snd), epoch⟩ := by
  rw [binnedLogs] at h
  obtain ⟨lu, hlu, he⟩ := List.mem_map.mp h
  exact ⟨lu, hlu, he.symm⟩

theorem binnedLogs_find?_none {stem : String} {preds labels : List ℚ} {epoch : ℕ}
    {n : String} (h : ∀ lu ∈ binEdges, ¬(stem ++ binSuffix lu = n)) :
    (binnedLogs stem preds labels epoch).find? (fun e => e.name = n) = none := by
  rw [List.find?_eq_none]
  intro e he
  obtain ⟨lu, hlu, rfl⟩ := binnedLogs_mem he
  simpa using h lu hlu

theorem binnedLogs_find?_self (stem : String) (preds labels : List ℚ) (epoch : ℕ)
    {lu : ℕ × ℕ} (hlu : lu ∈ binEdges) :
    (binnedLogs stem preds labels epoch).find? (fun e => e.name = stem ++ binSuffix lu) =
      some ⟨stem ++ binSuffix lu,
        mseV (((preds.zip labels).filter (inBin lu)).map Prod.fst)
             (((preds.zip labels).filter (inBin lu)).map Prod.snd), epoch⟩ := by
  rw [binnedLogs]
  exact find?_map_name binEdges _ (fun lu2 => stem ++ binSuffix lu2) (fun _ => rfl) lu hlu
    (fun y hy hn => by
      rw [binSuffix_inj y hy lu hlu ((string_append_left_inj stem).mp hn)])

theorem name_facts_one : ∀ lu ∈ binEdges,
    ¬(("trainer/learning_rate" : String) = "test/binned/rmse_" ++ binSuffix lu) ∧
    ¬(("val/agbd_rmse" : String) = "test/binned/rmse_" ++ binSuffix lu) ∧
    ¬(("test/agbd_rmse" : String) = "test/binned/rmse_" ++ binSuffix lu) ∧
    ¬(("trainer/learning_rate" : String) = "test/binned/best_rmse_" ++ binSuffix lu) ∧
    ¬(("val/agbd_rmse" : String) = "test/binned/best_rmse_" ++ binSuffix lu) ∧
    ¬(("test/agbd_rmse" : String) = "test/binned/best_rmse_" ++ binSuffix lu) ∧
    ¬(("val/best_rmse" : String) = "test/binned/best_rmse_" ++ binSuffix lu) ∧
    ¬(("test/best_rmse" : String) = "test/binned/best_rmse_" ++ binSuffix lu) ∧
    ¬("val/binned/rmse_" ++ binSuffix lu = "test/agbd_rmse") ∧
    ¬("val/binned/rmse_" ++ binSuffix lu = "test/best_rmse") ∧
    ¬("test/binned/rmse_" ++ binSuffix lu = "test/best_rmse") := by decide

theorem name_facts_two : ∀ x ∈ binEdges, ∀ y ∈ binEdges,
    ¬("val/binned/rmse_" ++ binSuffix x = "test/binned/rmse_" ++ binSuffix y) ∧
    ¬("val/binned/rmse_" ++ binSuffix x = "test/binned/best_rmse_" ++ binSuffix y) ∧
    ¬("test/binned/rmse_" ++ binSuffix x = "test/binned/best_rmse_" ++ binSuffix y) := by
  decide

theorem epochEndLogs_lookup_test_agbd (s : ModelState) (lr : ℚ) (epoch : ℕ) :
    lookupLog (epochEndLogs s lr epoch) "test/agbd_rmse" = some (testEpochRmse s) := by
  rw [lookupLog, epochEndLogs]
  simp only [List.find?_append]
  rw [List.find?_cons_of_neg _ (by simp), List.find?_cons_of_neg _ (by simp),
    binnedLogs_find?_none (fun lu hlu => (name_facts_one lu hlu).2.2.2.2.2.2.2.2.1),
    List.find?_cons_of_pos _ (by simp)]
  simp [Option.or]

theorem epochEndLogs_lookup_best_some (s : ModelState) (lr : ℚ) (epoch : ℕ)
    (himp : (valEpochRmse s).lt s.best_val_rmse = true) :
    lookupLog (epochEndLogs s lr epoch) "test/best_rmse" = some (testEpochRmse s) := by
  rw [lookupLog, epochEndLogs, if_pos himp]
  simp only [List.find?_append]
  rw [List.find?_cons_of_neg _ (by simp), List.find?_cons_of_neg _ (by simp),
    binnedLogs_find?_none (fun lu hlu => (name_facts_one lu hlu).2.2.2.2.2.2.2.2.2.1),
    List.find?_cons_of_neg _ (by simp),
    binnedLogs_find?_none (fun lu hlu => (name_facts_one lu hlu).2.2.2.2.2.2.2.2.2.2),
    List.find?_cons_of_neg _ (by simp),
    List.find?_cons_of_pos _ (by simp)]
  simp [Option.or]

theorem epochEndLogs_lookup_best_none (s : ModelState) (lr : ℚ) (epoch : ℕ)
    (himp : (valEpochRmse s).lt s.best_val_rmse = false) :
    lookupLog (epochEndLogs s lr epoch) "test/best_rmse" = none := by
  rw [lookupLog, epochEndLogs, if_neg (by simp [himp])]
  simp only [List.find?_append]
  rw [List.find?_cons_of_neg _ (by simp), List.find?_cons_of_neg _ (by simp),
    binnedLogs_find?_none (fun lu hlu => (name_facts_one lu hlu).2.2.2.2.2.2.2.2.2.1),
    List.find?_cons_of_neg _ (by simp),
    binnedLogs_find?_none (fun lu hlu => (name_facts_one lu hlu).2.2.2.2.2.2.2.2.2.2)]
  simp [Option.or]

theorem epochEndLogs_lookup_test_binned (s : ModelState) (lr : ℚ) (epoch : ℕ)
    {lu : ℕ × ℕ} (hlu : lu ∈ binEdges) :
    lookupLog (epochEndLogs s lr epoch) ("test/binned/rmse_" ++ binSuffix lu) =
      some (mseV
        (((s.test_preds.flatten.zip s.test_labels.flatten).filter (inBin lu)).map Prod.fst)
        (((s.test_preds.flatten.zip s.test_labels.flatten).filter (inBin lu)).map Prod.snd)) := by
  rw [lookupLog, epochEndLogs]
  simp only [List.find?_append]
  rw [List.find?_cons_of_neg _ (by simpa using (name_facts_one lu hlu).1),
    List.find?_cons_of_neg _ (by simpa using (name_facts_one lu hlu).2.1),
    binnedLogs_find?_none (fun y hy => (name_facts_two y hy lu hlu).1),
    List.find?_cons_of_neg _ (by simpa using (name_facts_one lu hlu).2.2.1),
    binnedLogs_find?_self "test/binned/rmse_" _ _ _ hlu]
  simp [Option.or]

theorem epochEndLogs_lookup_best_binned (s : ModelState) (lr : ℚ) (epoch : ℕ)
    (himp : (valEpochRmse s).lt s.best_val_rmse = true)
    {lu : ℕ × ℕ} (hlu : lu ∈ binEdges) :
    lookupLog (epochEndLogs s lr epoch) ("test/binned/best_rmse_" ++ binSuffix lu) =
      some (mseV
        (((s.test_preds.flatten.zip s.test_labels.flatten).filter (inBin lu)).map Prod.fst)
        (((s.test_preds.flatten.zip s.test_labels.flatten).filter (inBin lu)).map Prod.snd)) := by
  rw [lookupLog, epochEndLogs, if_pos himp]
  simp only [List.find?_append]
  rw [List.find?_cons_of_neg _ (by simpa using (name_facts_one lu hlu).2.2.2.1),
    List.find?_cons_of_neg _ (by simpa using (name_facts_one lu hlu).2.2.2.2.1),
    binnedLogs_find?_none (fun y hy => (name_facts_two y hy lu hlu).2.1),
    List.find?_cons_of_neg _ (by simpa using (name_facts_one lu hlu).2.2.2.2.2.1),
    binnedLogs_find?_none (fun y hy => (name_facts_two y hy lu hlu).2.2),
    List.find?_cons_of_neg _ (by simpa using (name_facts_one lu hlu).2.2.2.2.2.2.1),
    List.find?_cons_of_neg _ (by simpa using (name_facts_one lu hlu).2.2.2.2.2.2.2.1),
    binnedLogs_find?_self "test/binned/best_rmse_" _ _ _ hlu]
  simp [Option.or]

/-- C8: for validation RMSE values 10, 8, 9 over three successive cycles
(squared representation: 100, 64, 81; see `mseV`), the watermark after
the three reductions is 10, 8, 8 (squared: 100, 64, 64), and the
`best`-namespace test metrics are reported in the first and second
reductions but not in the third. -/
theorem C8_watermark_scenario :
    bestAfter scenarioRun1 = some (FVal.val 100) ∧
    bestAfter scenarioRun2 = some (FVal.val 64) ∧
    bestAfter scenarioRun3 = some (FVal.val 64) ∧
    bestReported scenarioRun1 = true ∧
    bestReported scenarioRun2 = true ∧
    bestReported scenarioRun3 = false := by
  have e1 : scenarioRun1 = Except.ok (epochEndState cWitState, epochEndLogs cWitState 1 1) := by
    have h1 : scenarioRun1 = on_validation_epoch_end cWitState 1 1 := rfl
    rw [h1, epochEnd_eq cWitState 1 1 (by decide)]
  have himp1 : (valEpochRmse cWitState).lt cWitState.best_val_rmse = true := by
    norm_num [valEpochRmse, cWitState, mseV, FVal.lt]
  have hS1 : epochEndState cWitState = ⟨.val 100, 7, [], [], [], []⟩ := by
    norm_num [epochEndState, cWitState, valEpochRmse, mseV, FVal.lt]
  have e2 : scenarioRun2 =
      Except.ok (epochEndState ⟨.val 100, 7, [[8]], [[0]], [[1]], [[0]]⟩,
        epochEndLogs ⟨.val 100, 7, [[8]], [[0]], [[1]], [[0]]⟩ 1 2) := by
    unfold scenarioRun2
    rw [e1, hS1]
    have h2 : (Except.ok ((⟨.val 100, 7, [], [], [], []⟩ : ModelState),
          epochEndLogs cWitState 1 1) >>= fun r => runEpoch r.1 [8] [0] [1] [0] 1 2) =
        on_validation_epoch_end ⟨.val 100, 7, [[8]], [[0]], [[1]], [[0]]⟩ 1 2 := rfl
    rw [h2, epochEnd_eq _ 1 2 (by decide)]
  have himp2 : (valEpochRmse ⟨.val 100, 7, [[8]], [[0]], [[1]], [[0]]⟩).lt
      (FVal.val 100) = true := by
    norm_num [valEpochRmse, mseV, FVal.lt]
  have hS2 : epochEndState ⟨.val 100, 7, [[8]], [[0]], [[1]], [[0]]⟩ =
      ⟨.val 64, 7, [], [], [], []⟩ := by
    norm_num [epochEndState, valEpochRmse, mseV, FVal.lt]
  have e3 : scenarioRun3 =
      Except.ok (epochEndState ⟨.val 64, 7, [[9]], [[0]], [[1]], [[0]]⟩,
        epochEndLogs ⟨.val 64, 7, [[9]], [[0]], [[1]], [[0]]⟩ 1 3) := by
    unfold scenarioRun3
    rw [e2, hS2]
    have h2 : (Except.ok ((⟨.val 64, 7, [], [], [], []⟩ : ModelState),
          epochEndLogs ⟨.val 100, 7, [[8]], [[0]], [[1]], [[0]]⟩ 1 2) >>=
            fun r => runEpoch r.1 [9] [0] [1] [0] 1 3) =
        on_validation_epoch_end ⟨.val 64, 7, [[9]], [[0]], [[1]], [[0]]⟩ 1 3 := rfl
    rw [h2, epochEnd_eq _ 1 3 (by decide)]
  have himp3 : (valEpochRmse ⟨.val 64, 7, [[9]], [[0]], [[1]], [[0]]⟩).lt
      (FVal.val 64) = false := by
    norm_num [valEpochRmse, mseV, FVal.lt]
  have hS3 : epochEndState ⟨.val 64, 7, [[9]], [[0]], [[1]], [[0]]⟩ =
      ⟨.val 64, 7, [], [], [], []⟩ := by
    norm_num [epochEndState, valEpochRmse, mseV, FVal.lt]
  refine ⟨?_, ?_, ?_, ?_, ?_, ?_⟩
  · rw [e1, hS1]
    rfl
  · rw [e2, hS2]
    rfl
  · rw [e3, hS3]
    rfl
  · rw [e1]
    simp only [bestReported]
    rw [epochEndLogs_lookup_best_some _ _ _ himp1]
    rfl
  · rw [e2]
    simp only [bestReported]
    rw [epochEndLogs_lookup_best_some _ _ _ himp2]
    rfl
  · rw [e3]
    simp only [bestReported]
    rw [epochEndLogs_lookup_best_none _ _ _ himp3]
    rfl

theorem name_facts_val : ∀ lu ∈ binEdges,
    ¬(("trainer/learning_rate" : String) = "val/binned/rmse_" ++ binSuffix lu) ∧
    ¬(("val/agbd_rmse" : String) = "val/binned/rmse_" ++ binSuffix lu) := by decide

theorem epochEndLogs_lookup_val_agbd (s : ModelState) (lr : ℚ) (epoch : ℕ) :
    lookupLog (epochEndLogs s lr epoch) "val/agbd_rmse" = some (valEpochRmse s) := by
  rw [lookupLog, epochEndLogs]
  simp only [List.find?_append]
  rw [List.find?_cons_of_neg _ (by simp), List.find?_cons_of_pos _ (by simp)]
  simp [Option.or]

theorem epochEndLogs_lookup_val_binned (s : ModelState) (lr : ℚ) (epoch : ℕ)
    {lu : ℕ × ℕ} (hlu : lu ∈ binEdges) :
    lookupLog (epochEndLogs s lr epoch) ("val/binned/rmse_" ++ binSuffix lu) =
      some (mseV
        (((s.val_preds.flatten.zip s.val_labels.flatten).filter (inBin lu)).map Prod.fst)
        (((s.val_preds.flatten.zip s.val_labels.flatten).filter (inBin lu)).map Prod.snd)) := by
  rw [lookupLog, epochEndLogs]
  simp only [List.find?_append]
  rw [List.find?_cons_of_neg _ (by simpa using (name_facts_val lu hlu).1),
    List.find?_cons_of_neg _ (by simpa using (name_facts_val lu hlu).2),
    binnedLogs_find?_self "val/binned/rmse_" _ _ _ hlu]
  simp [Option.or]

theorem two_le_countP {α : Type} (l : List α) (p : α → Bool) {x y : α}
    (hx : x ∈ l) (hy : y ∈ l) (hxy : x ≠ y) (hpx : p x = true) (hpy : p y = true) :
    2 ≤ l.countP p := by
  induction l with
  | nil => cases hx
  | cons a t ih =>
    rw [List.countP_cons]
    rcases List.mem_cons.mp hx with rfl | hx2
    · rcases List.mem_cons.mp hy with rfl | hy2
      · exact absurd rfl hxy
      · have h1 : 0 < t.countP p := List.countP_pos_iff.mpr ⟨y, hy2, hpy⟩
        rw [if_pos hpx]
        omega
    · rcases List.mem_cons.mp hy with rfl | hy2
      · have h1 : 0 < t.countP p := List.countP_pos_iff.mpr ⟨x, hx2, hpx⟩
        rw [if_pos hpy]
        omega
      · have := ih hx2 hy2
        omega

/-- C3 fails on the code: in a reduction where the 50-100 bin is empty
(one validation sample with label 10), a metric named
`val/binned/rmse_50-100` IS emitted, and its value is the NaN produced
by RMSE over zero samples — not absent. -/
theorem C3_counterexample :
    ((on_validation_epoch_end emptyBinState 1 0).map
        (fun r => lookupLog r.2 "val/binned/rmse_50-100")) =
      Except.ok (some FVal.nan) ∧
    ((emptyBinState.val_preds.flatten.zip emptyBinState.val_labels.flatten).filter
        (inBin (50, 100))) = [] := by
  constructor
  · rw [epochEnd_eq emptyBinState 1 0 (by decide)]
    have h := @epochEndLogs_lookup_val_binned emptyBinState 1 0 (50, 100) (by decide)
    rw [show ("val/binned/rmse_" ++ binSuffix (50, 100) : String) = "val/binned/rmse_50-100"
      from by decide] at h
    simp only [Except.map]
    rw [h]
    decide
  · decide

/-- C3 (amended): the binned evaluator emits one metric per bin
unconditionally; for a bin whose selected subset is empty the emitted
value is NaN (undefined RMSE over zero samples), and the empty-bin case
is non-fatal: the reduction completes whenever all accumulators are
non-empty. -/
theorem C3_empty_bins_nan :
    (∀ (stem : String) (preds labels : List ℚ) (epoch : ℕ),
      (binnedLogs stem preds labels epoch).length = binEdges.length) ∧
    (∀ (stem : String) (preds labels : List ℚ) (epoch : ℕ) (lu : ℕ × ℕ),
      lu ∈ binEdges →
      (preds.zip labels).filter (inBin lu) = [] →
      (⟨stem ++ binSuffix lu, FVal.nan, epoch⟩ : LogEntry) ∈
        binnedLogs stem preds labels epoch) ∧
    (∀ (s : ModelState) (lr : ℚ) (epoch : ℕ),
      s.val_preds ≠ [] → s.val_labels ≠ [] → s.test_preds ≠ [] → s.test_labels ≠ [] →
      on_validation_epoch_end s lr epoch =
        Except.ok (epochEndState s, epochEndLogs s lr epoch)) := by
  refine ⟨?_, ?_, ?_⟩
  · intro stem preds labels epoch
    rw [binnedLogs, List.length_map]
  · intro stem preds labels epoch lu hlu hempty
    rw [binnedLogs]
    apply List.mem_map.mpr
    refine ⟨lu, hlu, ?_⟩
    rw [hempty]
    rfl
  · intro s lr epoch h1 h2 h3 h4
    exact epochEnd_eq s lr epoch (by simp [List.isEmpty_iff, h1, h2, h3, h4])

/-- Witness for the amended C3. -/
theorem C3_empty_bins_nan_witness :
    (⟨"val/binned/rmse_" ++ binSuffix (50, 100), FVal.nan, 0⟩ : LogEntry) ∈
      binnedLogs "val/binned/rmse_" [12] [10] 0 ∧
    on_validation_epoch_end emptyBinState 1 0 =
      Except.ok (epochEndState emptyBinState, epochEndLogs emptyBinState 1 0) :=
  ⟨C3_empty_bins_nan.2.1 "val/binned/rmse_" [12] [10] 0 (50, 100) (by decide) (by decide),
   C3_empty_bins_nan.2.2 emptyBinState 1 0 (by decide) (by decide) (by decide) (by decide)⟩

/-- C6: the bins are the half-open intervals `[lb, ub)` over
0, 50, ..., 500; the per-bin subsets of any label sequence are pairwise
disjoint and their union is exactly the subset of labels in `[0, 500)`
(a permutation, hence no double-counting); labels outside the range fall
in no bin; and the overall metric is computed over the full
(unrestricted) flattened accumulator. -/
theorem C6_bin_partition :
    (∀ preds labels : List ℚ,
      ((binEdges.map fun lu => (preds.zip labels).filter (inBin lu)).flatten).Perm
        ((preds.zip labels).filter fun pl =>
          decide ((0 : ℚ) ≤ pl.2) && decide (pl.2 < 500))) ∧
    (∀ lu1, lu1 ∈ binEdges → ∀ lu2, lu2 ∈ binEdges → ∀ pl : ℚ × ℚ,
      inBin lu1 pl = true → inBin lu2 pl = true → lu1 = lu2) ∧
    (∀ pl : ℚ × ℚ, ¬((0 : ℚ) ≤ pl.2 ∧ pl.2 < 500) →
      ∀ lu ∈ binEdges, inBin lu pl = false) ∧
    (∀ (s : ModelState) (lr : ℚ) (epoch : ℕ),
      lookupLog (epochEndLogs s lr epoch) "val/agbd_rmse" =
        some (mseV s.val_preds.flatten s.val_labels.flatten)) := by
  refine ⟨binned_union_perm, ?_, ?_, ?_⟩
  · intro lu1 h1 lu2 h2 pl hb1 hb2
    by_contra hne
    have h2le := two_le_countP binEdges (fun lu => inBin lu pl) h1 h2 hne hb1 hb2
    rw [binEdges_countP pl] at h2le
    split at h2le <;> omega
  · intro pl h lu hlu
    have h0 := binEdges_countP pl
    rw [if_neg h] at h0
    simpa using List.countP_eq_zero.mp h0 lu hlu
  · intro s lr epoch
    exact epochEndLogs_lookup_val_agbd s lr epoch

/-- Witness for C6: disjointness and out-of-range exclusion at concrete
bins and labels. -/
theorem C6_bin_partition_witness :
    ((0, 50) : ℕ × ℕ) = (0, 50) ∧ inBin (0, 50) (0, 600) = false :=
  ⟨C6_bin_partition.2.1 (0, 50) (by decide) (0, 50) (by decide) (1, 10)
      (by decide) (by decide),
   C6_bin_partition.2.2.1 (0, 600) (by decide) (0, 50) (by decide)⟩

/-- C10: in a reduction where the watermark updates, the re-reported
`test/best_rmse` equals the `test/agbd_rmse` reported earlier in the
same reduction, and each `test/binned/best_rmse_{lb}-{ub}` equals the
earlier `test/binned/rmse_{lb}-{ub}`: the clearing of the accumulators
in between does not affect the `best`-namespace values, which are
computed from the same concatenated tensors. -/
theorem C10_best_metrics_equal_current :
    ∀ (s : ModelState) (lr : ℚ) (epoch : ℕ) (s2 : ModelState) (logs : List LogEntry),
      on_validation_epoch_end s lr epoch = Except.ok (s2, logs) →
      s2.best_val_rmse ≠ s.best_val_rmse →
      lookupLog logs "test/best_rmse" = lookupLog logs "test/agbd_rmse" ∧
      ∀ lu ∈ binEdges,
        lookupLog logs ("test/binned/best_rmse_" ++ binSuffix lu) =
          lookupLog logs ("test/binned/rmse_" ++ binSuffix lu) := by
  intro s lr epoch s2 logs h hne
  obtain ⟨rfl, rfl, -⟩ := epochEnd_ok_inv h
  have himp : (valEpochRmse s).lt s.best_val_rmse = true := by
    by_cases hl : (valEpochRmse s).lt s.best_val_rmse
    · exact hl
    · exact absurd (by simp [epochEndState, hl]) hne
  constructor
  · rw [epochEndLogs_lookup_best_some s lr epoch himp,
      epochEndLogs_lookup_test_agbd s lr epoch]
  · intro lu hlu
    rw [epochEndLogs_lookup_best_binned s lr epoch himp hlu,
      epochEndLogs_lookup_test_binned s lr epoch hlu]

/-- Witness for C10 at a concrete improving reduction. -/
theorem C10_best_metrics_equal_current_witness :
    lookupLog (epochEndLogs cWitState 1 0) "test/best_rmse" =
      lookupLog (epochEndLogs cWitState 1 0) "test/agbd_rmse" := by
  have h := epochEnd_eq cWitState 1 0 (by decide)
  have hne : (epochEndState cWitState).best_val_rmse ≠ cWitState.best_val_rmse := by
    have hS : epochEndState cWitState = ⟨.val 100, 7, [], [], [], []⟩ := by
      norm_num [epochEndState, cWitState, valEpochRmse, mseV, FVal.lt]
    rw [hS]
    decide
  exact (C10_best_metrics_equal_current cWitState 1 0 _ _ h hne).1
